import Mathlib

/-!
# Verification of the `db` query-formatting and migration package

Shallow embedding of the Go package `db` (files `db.go` / `queryable.go` /
`migrate.go`, current revision): the literal quoter `quoteLiteral`, the value
encoder `toDbValue`, the placeholder scanner `qprintf`, the statement-executor
facade (`Exec`, `Query`, `QueryRow`, `QueryRowAndScan`) and the migration
runner `Migrate.Run`.

Modelling conventions:
* Go strings are modelled as `String` / `List Char` (Unicode code points).
  The scanner indexes bytes in Go, but every character it inspects for
  word-char / colon tests is ASCII, and multi-byte code points are copied
  wholesale, so the code-point model is observationally equivalent.
* Go `interface{}` parameter values are modelled by the inductive `GoValue`,
  with one constructor per arm of the `toDbValue` type switch.  Outputs of
  external library calls that the package only forwards (`strconv.FormatFloat`,
  `decimal.Decimal.String`, `time.Time.Format`, `json.Marshal`) are carried as
  string payloads of the corresponding constructor.
* Fallible Go functions returning `(T, error)` become `Except GoErr T`.
* The database connection / transaction collaborator is modelled as a record
  of outcome functions, and each executor operation additionally returns the
  list of query strings that reached the collaborator.
-/

namespace Db

/-- A Go `interface{}` value as dispatched by `toDbValue`'s type switch.
Pointer constructors carry `Option`: `none` is a nil pointer.  `floatV`,
`decimalV`, `timeV` carry the string produced by the external formatting call
(`strconv.FormatFloat(v, 'g', -1, 64)`, `decimal.Decimal.String()`,
`time.Time.Format(DateTimeTzFormat)`).  `listV` is `CommaListParam`.
`otherV` is any value reaching the default `json.Marshal` branch, carrying
the marshalled text (`none` models a marshal error); a nil slice or a nil
pointer to a struct marshals to the literal text `"null"`. -/
inductive GoValue where
  | nilV
  | ptrStr (v : Option String)
  | strV (s : String)
  | ptrInt (v : Option Int)
  | intV (i : Int)
  | ptrFloat (v : Option String)
  | floatV (repr : String)
  | ptrBool (v : Option Bool)
  | boolV (b : Bool)
  | ptrDecimal (v : Option String)
  | decimalV (s : String)
  | ptrTime (v : Option String)
  | timeV (s : String)
  | listV (xs : List GoValue)
  | otherV (marshalled : Option String)
  deriving Repr

/-- `type Params map[string]interface{}`, modelled as an association list
(the scanner only ever performs key lookups, never iteration). -/
abbrev Params := List (String × GoValue)

/-- Errors produced or forwarded by the package.  `missingParam` models
`fmt.Errorf("parameter %s is missing", param)`; `marshalFailure` a
`json.Marshal` error; `errNoRows` the sentinel `sql.ErrNoRows`; `connFail` an
arbitrary collaborator error; `wrapped` the `*Error` produced by `wrapError`
(cause plus original query template and params). -/
inductive GoErr where
  | missingParam (name : String)
  | marshalFailure
  | errNoRows
  | connFail (msg : String)
  | wrapped (cause : GoErr) (query : String) (prms : Params)
  deriving Repr

/-- The body-escaping loop of `quoteLiteral`: doubles every backslash and
every single quote, code point by code point (`for _, c := range s`), and
reports whether a backslash was seen (`hasSlash`). -/
def quoteBody : List Char → List Char × Bool
  | [] => ([], false)
  | c :: cs =>
    let r := quoteBody cs
    if c = '\\' then ('\\' :: '\\' :: r.1, true)
    else if c = '\'' then ('\'' :: '\'' :: r.1, r.2)
    else (c :: r.1, r.2)

/-- `quoteLiteral` (db.go): writes `E'`, the escaped body, `'`, then drops
the leading `E` (`s[1:]`, a 1-byte slice) when no backslash occurred. -/
def quoteLiteral (s : String) : String :=
  let r := quoteBody s.data
  let full : List Char := 'E' :: '\'' :: (r.1 ++ ['\''])
  if r.2 then String.mk full else String.mk full.tail

mutual

/-- `toDbValue` (db.go): renders one parameter value as SQL literal text.
The `CommaListParam` arm is the mutual helper `toDbValueList` (the
`for i := range value` loop that fails on the first element error);
`strings.Join(e, ", ")` is `String.intercalate ", "`.  The default branch
returns `NULL` when `json.Marshal` produced the literal `null`. -/
def toDbValue : GoValue → Except GoErr String
  | .nilV => .ok "NULL"
  | .ptrStr none => .ok "NULL"
  | .ptrStr (some s) => toDbValue (.strV s)
  | .strV s => .ok (quoteLiteral s)
  | .ptrInt none => .ok "NULL"
  | .ptrInt (some i) => toDbValue (.intV i)
  | .intV i => .ok (toString i)
  | .ptrFloat none => .ok "NULL"
  | .ptrFloat (some f) => toDbValue (.floatV f)
  | .floatV f => .ok f
  | .ptrBool none => .ok "NULL"
  | .ptrBool (some b) => toDbValue (.boolV b)
  | .boolV b => .ok (if b then "true" else "false")
  | .ptrDecimal none => .ok "NULL"
  | .ptrDecimal (some d) => toDbValue (.decimalV d)
  | .decimalV d => .ok d
  | .ptrTime none => .ok "NULL"
  | .ptrTime (some t) => toDbValue (.timeV t)
  | .timeV t => .ok (quoteLiteral t)
  | .listV xs =>
    match toDbValueList xs with
    | .error e => .error e
    | .ok es => .ok (String.intercalate ", " es)
  | .otherV none => .error .marshalFailure
  | .otherV (some m) => if m = "null" then .ok "NULL" else .ok (quoteLiteral m)
termination_by v => sizeOf v

/-- Element loop of the `CommaListParam` arm of `toDbValue`. -/
def toDbValueList : List GoValue → Except GoErr (List String)
  | [] => .ok []
  | v :: vs =>
    match toDbValue v with
    | .error e => .error e
    | .ok s =>
      match toDbValueList vs with
      | .error e => .error e
      | .ok ss => .ok (s :: ss)
termination_by vs => sizeOf vs

end

/-- `isNotWordChar` (closure inside `qprintf`, db.go). -/
def isNotWordChar (c : Char) : Bool :=
  !((('A' ≤ c) && (c ≤ 'Z')) || (('a' ≤ c) && (c ≤ 'z')) || (c == '_'))

/-- `qprintf` (db.go): the placeholder scanner.  The Go loop locates the next
`':'` with `strings.IndexRune` and copies the preceding text wholesale; here
the copy is performed character by character, which yields the same output.
A trailing colon is copied (`idx == len(s)-1`); a colon followed by a
non-word character is copied together with that character (`s[:idx+2]`);
otherwise the maximal following word-character run is the placeholder name
(`strings.IndexFunc(s, isNotWordChar)`), which is looked up and its encoded
value spliced in.  On a missing parameter or an encoder error the Go function
returns `("", err)`: the `Except` error carries no partial output. -/
def qprintf (s : List Char) (params : Params) : Except GoErr (List Char) :=
  match s with
  | [] => .ok []
  | c :: rest =>
    if c = ':' then
      match hr : rest with
      | [] => .ok [c]
      | d :: rest' =>
        if isNotWordChar d then
          match qprintf rest' params with
          | .error e => .error e
          | .ok r => .ok (c :: d :: r)
        else
          let name := rest.takeWhile (fun x => !(isNotWordChar x))
          let after := rest.dropWhile (fun x => !(isNotWordChar x))
          match params.lookup (String.mk name) with
          | none => .error (.missingParam (String.mk name))
          | some v =>
            match toDbValue v with
            | .error e => .error e
            | .ok cv =>
              match qprintf after params with
              | .error e => .error e
              | .ok r => .ok (cv.data ++ r)
    else
      match qprintf rest params with
      | .error e => .error e
      | .ok r => .ok (c :: r)
termination_by s.length
decreasing_by
  · simp only [List.length_cons]; omega
  · refine Nat.lt_of_le_of_lt (List.Sublist.length_le (List.dropWhile_sublist _)) ?_
    subst_vars
    simp only [List.length_cons]
    omega
  · simp only [List.length_cons]; omega

/-- Restatement of the Literal Quoter contract in the spec's own words
(spec section 4.2): double every single quote, double every backslash,
enclose in single quotes, and put the marker `E` in front exactly when the
input contains a backslash. -/
def quoteLiteralSpec (s : String) : String :=
  let escaped := s.data.flatMap (fun c => if c = '\'' ∨ c = '\\' then [c, c] else [c])
  (if s.data.contains '\\' then "E" else "") ++ "'" ++ String.mk escaped ++ "'"

/-- A piece of the template as the scanner sees it: literal text copied
verbatim, or a recognised placeholder with its name. -/
inductive Chunk where
  | lit (cs : List Char)
  | ph (name : List Char)
  deriving Repr, DecidableEq

/-- The decomposition of a template that `qprintf`'s scan induces:
the same case analysis as `qprintf`, but recording what is literal text and
what is a recognised placeholder instead of rendering. -/
def tokenize (s : List Char) : List Chunk :=
  match s with
  | [] => []
  | c :: rest =>
    if c = ':' then
      match hr : rest with
      | [] => [.lit [c]]
      | d :: rest' =>
        if isNotWordChar d then
          .lit [c, d] :: tokenize rest'
        else
          .ph (rest.takeWhile (fun x => !(isNotWordChar x))) ::
            tokenize (rest.dropWhile (fun x => !(isNotWordChar x)))
    else
      .lit [c] :: tokenize rest
termination_by s.length
decreasing_by
  · simp only [List.length_cons]; omega
  · refine Nat.lt_of_le_of_lt (List.Sublist.length_le (List.dropWhile_sublist _)) ?_
    subst_vars
    simp only [List.length_cons]
    omega
  · simp only [List.length_cons]; omega

/-- The template text a chunk stands for: a literal chunk is its own text,
a placeholder chunk stands for `:` followed by its name. -/
def chunkSource : Chunk → List Char
  | .lit cs => cs
  | .ph w => ':' :: w

/-- Renders a chunk list: literal chunks verbatim, placeholder chunks by
lookup and `toDbValue`, failing exactly as `qprintf` does. -/
def renderChunks (params : Params) : List Chunk → Except GoErr (List Char)
  | [] => .ok []
  | .lit cs :: ks =>
    match renderChunks params ks with
    | .error e => .error e
    | .ok r => .ok (cs ++ r)
  | .ph w :: ks =>
    match params.lookup (String.mk w) with
    | none => .error (.missingParam (String.mk w))
    | some v =>
      match toDbValue v with
      | .error e => .error e
      | .ok cv =>
        match renderChunks params ks with
        | .error e => .error e
        | .ok r => .ok (cv.data ++ r)

/-- Whether the scan recognises any placeholder in the template. -/
def hasPlaceholder (s : List Char) : Bool :=
  (tokenize s).any (fun k => match k with | .ph _ => true | .lit _ => false)

/-- The name of the first recognised placeholder that has no entry in the
parameter mapping, if any. -/
def firstMissingName (params : Params) : List Chunk → Option String
  | [] => none
  | .lit _ :: ks => firstMissingName params ks
  | .ph w :: ks =>
    match params.lookup (String.mk w) with
    | none => some (String.mk w)
    | some _ => firstMissingName params ks

/-- A valid right boundary for a placeholder name: end of template, or a
character outside the name-character class (the name run is maximal). -/
def isBoundary : List Char → Bool
  | [] => true
  | d :: _ => isNotWordChar d

/-- `wrapError` (db.go): attaches the original template and parameter
mapping to a failure (`err == nil` cannot occur on the `Except` error path). -/
def wrapError (err : GoErr) (sql : String) (params : Params) : GoErr :=
  .wrapped err sql params

/-- The connection/transaction collaborator (`Queryable` and `*sql.Tx`),
modelled by the outcome of each kind of call for a given query string.
`rowScanOutcome q` is the result of `Scan` on the `*sql.Row` that
`QueryRowContext` returns for `q` (a `*sql.Row` defers its error to `Scan`,
so `QueryRow` itself never observes a collaborator error). -/
structure Conn where
  execOutcome : String → Except GoErr Unit
  queryOutcome : String → Except GoErr Unit
  rowScanOutcome : String → Except GoErr Unit

/-- `Exec` (db.go): render the template, then `ExecContext`.  The second
component lists the query strings that reached the collaborator (empty when
rendering failed, so no call was made).  `sql.Result` is abstracted to
`Unit`. -/
def Exec (db : Conn) (sqlT : String) (params : Params) :
    Except GoErr Unit × List String :=
  match qprintf sqlT.data params with
  | .error err => (.error (wrapError err sqlT params), [])
  | .ok query =>
    match db.execOutcome (String.mk query) with
    | .error err => (.error (wrapError err sqlT params), [String.mk query])
    | .ok r => (.ok r, [String.mk query])

/-- `Query` (db.go): render, then `QueryContext`.  `*sql.Rows` abstracted to
`Unit`. -/
def Query (db : Conn) (sqlT : String) (params : Params) :
    Except GoErr Unit × List String :=
  match qprintf sqlT.data params with
  | .error err => (.error (wrapError err sqlT params), [])
  | .ok query =>
    match db.queryOutcome (String.mk query) with
    | .error err => (.error (wrapError err sqlT params), [String.mk query])
    | .ok r => (.ok r, [String.mk query])

/-- `QueryRow` (db.go): render, then `QueryRowContext`, which always yields a
row handle; the handle is modelled by the outcome its later `Scan` will
produce. -/
def QueryRow (db : Conn) (sqlT : String) (params : Params) :
    Except GoErr (Except GoErr Unit) × List String :=
  match qprintf sqlT.data params with
  | .error err => (.error (wrapError err sqlT params), [])
  | .ok query => (.ok (db.rowScanOutcome (String.mk query)), [String.mk query])

/-- `QueryRowAndScan` (db.go): `QueryRow`, then `row.Scan`; a scan failure
equal to the sentinel `sql.ErrNoRows` is returned as is, any other failure is
wrapped. -/
def QueryRowAndScan (db : Conn) (q : String) (params : Params) :
    Except GoErr Unit × List String :=
  match QueryRow db q params with
  | (.error e, log) => (.error e, log)
  | (.ok row, log) =>
    match row with
    | .ok _ => (.ok (), log)
    | .error err =>
      match err with
      | .errNoRows => (.error .errNoRows, log)
      | _ => (.error (wrapError err q params), log)

/-- `type Migration struct { Version int; Sql string }` (migrate.go). -/
structure Migration where
  version : Int
  sql : String
  deriving Repr, DecidableEq

/-- The `for _, m := range migrations` loop of `Migrate.Run` (migrate.go):
state is the in-memory tracker `latest`, the stored error, and (for the
model) the list of bodies passed to `tx.Exec` so far.  `break` on a stored
error; a migration with `m.Version > latest` has its body executed and the
tracker set to `m.Version` — also when the body failed, exactly as in the
source (`_, err = tx.Exec(m.Sql); latest = m.Version`). -/
def migrateLoop (tx : Conn) : List Migration → Int → Option GoErr → List String →
    Int × Option GoErr × List String
  | [], latest, err, log => (latest, err, log)
  | m :: ms, latest, err, log =>
    match err with
    | some e => (latest, some e, log)
    | none =>
      if m.version > latest then
        match tx.execOutcome m.sql with
        | .ok _ => migrateLoop tx ms m.version none (log ++ [m.sql])
        | .error e => migrateLoop tx ms m.version (some e) (log ++ [m.sql])
      else
        migrateLoop tx ms latest none log

/-- `Migrate.Run` (migrate.go) after a successful version read.  `persisted`
is the version the catalog currently records (`getLatestVersion`; 0 for an
empty catalog).  Returns the persisted version after the run, the queries the
transaction received (bodies in execution order, then the version update if
reached), and the returned error.  On a loop error the update and the commit
are skipped and `tx.Rollback` leaves the persisted version unchanged; the
update statement goes through the statement executor `Exec` exactly as in
the source, and its failure is returned (no commit).  `tx.Commit`'s own
result is ignored by the source, so the commit is modelled as succeeding. -/
def MigrateRun (tx : Conn) (persisted : Int) (migrations : List Migration) :
    Int × List String × Option GoErr :=
  let r := migrateLoop tx migrations persisted none []
  match r.2.1 with
  | some e => (persisted, r.2.2, some e)
  | none =>
    match Exec tx "UPDATE migrations SET version = :latest"
        [("latest", .intV r.1)] with
    | (.error e, calls) => (persisted, r.2.2 ++ calls, some e)
    | (.ok _, calls) => (r.1, r.2.2 ++ calls, none)

/-- Collaborator stub: every operation succeeds. -/
def okConn : Conn :=
  ⟨fun _ => .ok (), fun _ => .ok (), fun _ => .ok ()⟩

/-- Collaborator stub: every operation reports the no-rows sentinel. -/
def noRowsConn : Conn :=
  ⟨fun _ => .error .errNoRows, fun _ => .error .errNoRows,
    fun _ => .error .errNoRows⟩

/-- Collaborator stub: statements succeed but row scans fail with an
ordinary error. -/
def failScanConn : Conn :=
  ⟨fun _ => .ok (), fun _ => .ok (), fun _ => .error (.connFail "x")⟩

/-- Transaction stub: executing the body text `mig_b` fails, everything
else succeeds. -/
def failBConn : Conn :=
  ⟨fun q => if q = "mig_b" then .error (.connFail "boom") else .ok (),
    fun _ => .ok (), fun _ => .ok ()⟩

/-! ## Helper lemmas -/

/-- The escaping loop of `quoteLiteral` doubles quotes and backslashes and
reports whether a backslash occurred. -/
theorem quoteBody_eq (cs : List Char) :
    quoteBody cs =
      (cs.flatMap (fun c => if c = '\'' ∨ c = '\\' then [c, c] else [c]),
        cs.contains '\\') := by
  induction cs with
  | nil => rfl
  | cons c cs ih =>
    by_cases h1 : c = '\\'
    · subst h1
      simp [quoteBody, ih, List.contains_cons]
    · by_cases h2 : c = '\''
      · subst h2
        simp [quoteBody, ih, h1, List.contains_cons]
      · simp [quoteBody, ih, h1, h2, List.contains_cons]
        intro h
        exact absurd h.symm h1

/-- The scan of `qprintf` renders exactly the chunk decomposition computed
by `tokenize`: literal chunks verbatim, placeholder chunks through lookup
and the encoder. -/
theorem qprintf_eq_renderChunks (s : List Char) (params : Params) :
    qprintf s params = renderChunks params (tokenize s) := by
  induction s using tokenize.induct with
  | case1 => simp [qprintf, tokenize, renderChunks]
  | case2 => simp [qprintf, tokenize, renderChunks]
  | case3 d rest' hd ih =>
    rw [qprintf.eq_def, tokenize.eq_def]
    dsimp only
    rw [if_pos rfl, if_pos rfl, if_pos hd, if_pos hd, ih]
    dsimp only [renderChunks]
    cases h : renderChunks params (tokenize rest') <;> simp [h]
  | case4 d rest' hd ih =>
    rw [qprintf.eq_def, tokenize.eq_def]
    dsimp only
    rw [if_pos rfl, if_pos rfl, if_neg hd, if_neg hd]
    dsimp only [renderChunks]
    cases h : List.lookup
        (String.mk ((d :: rest').takeWhile (fun x => !(isNotWordChar x))))
        params with
    | none => simp [h]
    | some v =>
      simp only [h]
      cases h2 : toDbValue v with
      | error e => simp [h2]
      | ok cv =>
        simp only [h2, ih]
  | case5 c cs hc ih =>
    rw [qprintf.eq_def, tokenize.eq_def]
    dsimp only
    rw [if_neg hc, if_neg hc, ih]
    dsimp only [renderChunks]
    cases h : renderChunks params (tokenize cs) <;> simp [h]

/-- The chunk decomposition loses nothing: the sources of the chunks,
concatenated in order, are the template itself. -/
theorem tokenize_flatten (s : List Char) :
    ((tokenize s).map chunkSource).flatten = s := by
  induction s using tokenize.induct with
  | case1 => simp [tokenize]
  | case2 => simp [tokenize, chunkSource]
  | case3 d rest' hd ih =>
    rw [tokenize.eq_def]
    dsimp only
    rw [if_pos rfl, if_pos hd]
    simp [chunkSource, ih]
  | case4 d rest' hd ih =>
    rw [tokenize.eq_def]
    dsimp only
    rw [if_pos rfl, if_neg hd]
    simp [chunkSource, ih, List.takeWhile_append_dropWhile]
  | case5 c cs hc ih =>
    rw [tokenize.eq_def]
    dsimp only
    rw [if_neg hc]
    simp [chunkSource, ih]

/-- A chunk list without placeholders renders to its own flattened sources,
for any parameter mapping. -/
theorem renderChunks_of_no_ph (params : Params) (ks : List Chunk)
    (h : ∀ w, Chunk.ph w ∉ ks) :
    renderChunks params ks = .ok ((ks.map chunkSource).flatten) := by
  induction ks with
  | nil => simp [renderChunks]
  | cons k ks ih =>
    cases k with
    | lit cs =>
      have h' : ∀ w, Chunk.ph w ∉ ks := fun w hw => h w (List.mem_cons_of_mem _ hw)
      simp [renderChunks, chunkSource, ih h']
    | ph w => exact absurd (List.mem_cons_self _ _) (h w)

/-- Copying over a colon-free prefix: the scan emits it verbatim and
continues with the remainder. -/
theorem qprintf_copy_front (pre s : List Char) (params : Params)
    (h : ':' ∉ pre) :
    qprintf (pre ++ s) params =
      match qprintf s params with
      | .error e => .error e
      | .ok r => .ok (pre ++ r) := by
  induction pre with
  | nil =>
    cases h' : qprintf s params <;> simp [h']
  | cons c cs ih =>
    have hc : ¬(c = ':') := by
      intro hh
      exact h (by simp [hh])
    have h' : ':' ∉ cs := fun hm => h (List.mem_cons_of_mem _ hm)
    rw [List.cons_append, qprintf.eq_def]
    dsimp only
    rw [if_neg hc, ih h']
    cases h'' : qprintf s params <;> simp [h'']

/-- A run of name characters followed by a boundary is consumed whole by
`takeWhile` and the boundary is where `dropWhile` resumes. -/
theorem takeWhile_word_run (w rest : List Char)
    (hw : ∀ c ∈ w, isNotWordChar c = false) (hb : isBoundary rest = true) :
    (w ++ rest).takeWhile (fun x => !(isNotWordChar x)) = w ∧
    (w ++ rest).dropWhile (fun x => !(isNotWordChar x)) = rest := by
  induction w with
  | nil =>
    cases rest with
    | nil => simp
    | cons d rest' =>
      have hd : isNotWordChar d = true := hb
      simp [List.takeWhile_cons, List.dropWhile_cons, hd]
  | cons c w' ih =>
    have hc := hw c (List.mem_cons_self _ _)
    have hw' : ∀ x ∈ w', isNotWordChar x = false :=
      fun x hx => hw x (List.mem_cons_of_mem _ hx)
    simp [List.takeWhile_cons, List.dropWhile_cons, hc, ih hw']

/-- The scan of a template shaped `pre ++ ":" ++ w ++ rest` — colon-free
prefix, nonempty maximal word run `w`, boundary at `rest` — treats exactly
`w` as the placeholder name: it looks `w` up, fails with the missing-param
error when absent, splices the encoded value otherwise, and continues with
`rest`. -/
theorem qprintf_placeholder (pre w rest : List Char) (params : Params)
    (hpre : ':' ∉ pre) (hw0 : w ≠ [])
    (hw : ∀ c ∈ w, isNotWordChar c = false) (hb : isBoundary rest = true) :
    qprintf (pre ++ ':' :: (w ++ rest)) params =
      match List.lookup (String.mk w) params with
      | none => .error (.missingParam (String.mk w))
      | some v =>
        match toDbValue v with
        | .error e => .error e
        | .ok cv =>
          match qprintf rest params with
          | .error e => .error e
          | .ok r => .ok (pre ++ (cv.data ++ r)) := by
  rw [qprintf_copy_front _ _ _ hpre]
  cases w with
  | nil => exact absurd rfl hw0
  | cons wc w' =>
    have hwc := hw wc (List.mem_cons_self _ _)
    have ht := takeWhile_word_run (wc :: w') rest hw hb
    rw [List.cons_append] at ht
    rw [List.cons_append, qprintf.eq_def]
    dsimp only
    rw [if_pos rfl, if_neg (by simp [hwc]), ht.1, ht.2]
    cases hl : List.lookup (String.mk (wc :: w')) params with
    | none => simp [hl]
    | some v =>
      simp only [hl]
      cases h2 : toDbValue v with
      | error e => simp [h2]
      | ok cv =>
        simp only [h2]
        cases h3 : qprintf rest params <;> simp [h3]

/-- A colon followed by a non-name character is copied through unchanged
(together with that character), and scanning resumes after it. -/
theorem qprintf_skip_nonword (pre : List Char) (d : Char) (rest : List Char)
    (params : Params) (hpre : ':' ∉ pre) (hd : isNotWordChar d = true) :
    qprintf (pre ++ ':' :: d :: rest) params =
      match qprintf rest params with
      | .error e => .error e
      | .ok r => .ok (pre ++ ':' :: d :: r) := by
  rw [qprintf_copy_front _ _ _ hpre]
  rw [qprintf.eq_def]
  dsimp only
  rw [if_pos rfl, if_pos hd]
  cases h : qprintf rest params <;> simp [h]

/-- A trailing colon is copied through unchanged. -/
theorem qprintf_trailing_colon (pre : List Char) (params : Params)
    (hpre : ':' ∉ pre) :
    qprintf (pre ++ [':']) params = .ok (pre ++ [':']) := by
  rw [qprintf_copy_front _ _ _ hpre]
  rw [qprintf.eq_def]
  dsimp only
  rw [if_pos rfl]

/-- An association-list hit comes from a pair of the list. -/
theorem mem_of_lookup {params : Params} {k : String} {v : GoValue}
    (h : List.lookup k params = some v) : (k, v) ∈ params := by
  induction params with
  | nil => simp [List.lookup] at h
  | cons p ps ih =>
    obtain ⟨a, b⟩ := p
    rw [List.lookup] at h
    cases hb : (k == a) with
    | true =>
      rw [hb] at h
      have hk : k = a := eq_of_beq hb
      have hv : b = v := by simpa using h
      subst hk
      subst hv
      exact List.mem_cons_self _ _
    | false =>
      rw [hb] at h
      simp only [] at h
      exact List.mem_cons_of_mem _ (ih h)

/-- A successful render implies every recognised placeholder had an entry. -/
theorem renderChunks_ok_lookup (params : Params) (ks : List Chunk) :
    ∀ out, renderChunks params ks = .ok out →
      ∀ w, Chunk.ph w ∈ ks → ∃ v, List.lookup (String.mk w) params = some v := by
  induction ks with
  | nil =>
    intro out h w hw
    simp at hw
  | cons k ks ih =>
    intro out h w hw
    cases k with
    | lit cs =>
      simp only [renderChunks] at h
      cases h' : renderChunks params ks with
      | error e =>
        rw [h'] at h
        simp at h
      | ok r =>
        rcases List.mem_cons.mp hw with h1 | h1
        · simp at h1
        · exact ih r h' w h1
    | ph w' =>
      simp only [renderChunks] at h
      cases hl : List.lookup (String.mk w') params with
      | none =>
        rw [hl] at h
        simp at h
      | some v =>
        rw [hl] at h
        dsimp only at h
        rcases List.mem_cons.mp hw with h1 | h1
        · have hww : w = w' := by simpa using h1
          subst hww
          exact ⟨v, hl⟩
        · cases h2 : toDbValue v with
          | error e =>
            rw [h2] at h
            simp at h
          | ok cv =>
            rw [h2] at h
            dsimp only at h
            cases h3 : renderChunks params ks with
            | error e =>
              rw [h3] at h
              simp at h
            | ok r => exact ih r h3 w h1

/-- When every supplied value encodes successfully, the render fails with
the missing-parameter error naming the first recognised placeholder that has
no entry. -/
theorem renderChunks_firstMissing (params : Params) (ks : List Chunk)
    (henc : ∀ p ∈ params, ∃ t, toDbValue p.2 = .ok t) :
    ∀ n, firstMissingName params ks = some n →
      renderChunks params ks = .error (.missingParam n) := by
  induction ks with
  | nil =>
    intro n h
    simp [firstMissingName] at h
  | cons k ks ih =>
    intro n h
    cases k with
    | lit cs =>
      rw [firstMissingName] at h
      rw [renderChunks, ih n h]
    | ph w' =>
      rw [firstMissingName] at h
      cases hl : List.lookup (String.mk w') params with
      | none =>
        rw [hl] at h
        cases h
        simp [renderChunks, hl]
      | some v =>
        rw [hl] at h
        obtain ⟨t, ht⟩ := henc (String.mk w', v) (mem_of_lookup hl)
        rw [renderChunks, hl]
        simp only [ht]
        rw [ih n h]

/-- Every recognised placeholder name consists of word characters only. -/
theorem tokenize_ph_wordchars (s : List Char) :
    ∀ w, Chunk.ph w ∈ tokenize s → ∀ c ∈ w, isNotWordChar c = false := by
  induction s using tokenize.induct with
  | case1 =>
    intro w hw
    simp [tokenize] at hw
  | case2 =>
    intro w hw
    simp [tokenize] at hw
  | case3 d rest' hd ih =>
    intro w hw c hc
    rw [tokenize.eq_def] at hw
    dsimp only at hw
    rw [if_pos rfl, if_pos hd] at hw
    rcases List.mem_cons.mp hw with h1 | h1
    · simp at h1
    · exact ih w h1 c hc
  | case4 d rest' hd ih =>
    intro w hw c hc
    rw [tokenize.eq_def] at hw
    dsimp only at hw
    rw [if_pos rfl, if_neg hd] at hw
    rcases List.mem_cons.mp hw with h1 | h1
    · have hww : w = (d :: rest').takeWhile (fun x => !(isNotWordChar x)) := by
        simpa using h1
      subst hww
      have := List.mem_takeWhile_imp hc
      simpa using this
    · exact ih w h1 c hc
  | case5 c' cs hc' ih =>
    intro w hw c hc
    rw [tokenize.eq_def] at hw
    dsimp only at hw
    rw [if_neg hc'] at hw
    rcases List.mem_cons.mp hw with h1 | h1
    · simp at h1
    · exact ih w h1 c hc

/-! ## Claim theorems -/

/-- C1: `quoteLiteral` returns exactly the input with every single quote
doubled and every backslash doubled, enclosed in single quotes, prefixed
with `E` if and only if the input contains a backslash, processed by Unicode
code point — i.e. it coincides with the spec-mandated `quoteLiteralSpec` on
every string. -/
theorem quoteLiteral_matches_spec (s : String) :
    quoteLiteral s = quoteLiteralSpec s := by
  simp only [quoteLiteral, quoteLiteralSpec, quoteBody_eq]
  by_cases h : s.data.contains '\\'
  · simp only [h, if_true]
    rfl
  · simp only [h, if_false, Bool.false_eq_true]
    rfl

/-- C5: every null-valued parameter — the nil interface, a nil pointer to
each supported scalar kind (string, int, float64, bool, decimal, timestamp),
and any value whose JSON marshalling is the literal `null` (which is what a
nil slice or a nil pointer to a struct marshals to) — encodes to exactly
`NULL` with no error. -/
theorem toDbValue_null_is_NULL :
    toDbValue .nilV = .ok "NULL" ∧
    toDbValue (.ptrStr none) = .ok "NULL" ∧
    toDbValue (.ptrInt none) = .ok "NULL" ∧
    toDbValue (.ptrFloat none) = .ok "NULL" ∧
    toDbValue (.ptrBool none) = .ok "NULL" ∧
    toDbValue (.ptrDecimal none) = .ok "NULL" ∧
    toDbValue (.ptrTime none) = .ok "NULL" ∧
    toDbValue (.otherV (some "null")) = .ok "NULL" := by
  refine ⟨?_, ?_, ?_, ?_, ?_, ?_, ?_, ?_⟩ <;> simp [toDbValue]

/-- The element loop of the comma-list arm is exactly an independent
element-wise traversal with the encoder itself. -/
theorem toDbValueList_eq_mapM (xs : List GoValue) :
    toDbValueList xs = xs.mapM toDbValue := by
  induction xs with
  | nil =>
    simp only [toDbValueList]
    rfl
  | cons v vs ih =>
    rw [List.mapM_cons]
    cases h : toDbValue v with
    | error e => simp [toDbValueList, h, Bind.bind, Except.bind]
    | ok s =>
      rw [toDbValueList, h, ih]
      cases h2 : vs.mapM toDbValue <;>
        simp [h2, Bind.bind, Except.bind, Functor.map, Except.map, pure,
          Except.pure]

/-- C6: a list parameter is encoded by encoding each element independently
with the same encoder and joining with the two-character separator `", "`;
the empty list encodes to the empty string; and the concrete template
`WHERE field IN (:xs)` with `xs = [1,2,3,nil,"as"]` renders to
`WHERE field IN (1, 2, 3, NULL, 'as')`. -/
theorem commaList_encoding :
    (∀ xs : List GoValue,
        toDbValue (.listV xs) =
          match xs.mapM toDbValue with
          | .error e => .error e
          | .ok es => .ok (String.intercalate ", " es)) ∧
    toDbValue (.listV []) = .ok "" ∧
    qprintf "WHERE field IN (:xs)".data
        [("xs", .listV [.intV 1, .intV 2, .intV 3, .nilV, .strV "as"])] =
      .ok "WHERE field IN (1, 2, 3, NULL, 'as')".data := by
  refine ⟨?_, ?_, ?_⟩
  · intro xs
    rw [toDbValue, toDbValueList_eq_mapM]
  · rw [toDbValue]
    simp [toDbValueList]
    rfl
  · simp +decide [qprintf, toDbValue, toDbValueList, quoteLiteral, quoteBody,
      isNotWordChar]

/-- C2: the scanner recognises a placeholder exactly as the maximal run of
name characters after a colon that is not consumed as part of a
greedily-paired `::` (a colon followed by a non-word character, or at the
end of the template, is passed through unchanged), as stated by: the two
concrete examples `'1'::int` (unchanged) and `:a, :a_b, :a b`
(longest-match on the overlapping names), the general placeholder shape,
the general colon-plus-non-word pass-through, and the trailing-colon
pass-through. -/
theorem scanner_placeholder_recognition :
    (qprintf "'1'::int".data [("int", .intV 1)] = .ok "'1'::int".data) ∧
    (qprintf ":a, :a_b, :a b".data
        [("a", .strV "value_a"), ("a_b", .strV "value_b")] =
      .ok "'value_a', 'value_b', 'value_a' b".data) ∧
    (∀ (pre w rest : List Char) (params : Params),
        ':' ∉ pre → w ≠ [] → (∀ c ∈ w, isNotWordChar c = false) →
        isBoundary rest = true →
        qprintf (pre ++ ':' :: (w ++ rest)) params =
          match List.lookup (String.mk w) params with
          | none => .error (.missingParam (String.mk w))
          | some v =>
            match toDbValue v with
            | .error e => .error e
            | .ok cv =>
              match qprintf rest params with
              | .error e => .error e
              | .ok r => .ok (pre ++ (cv.data ++ r))) ∧
    (∀ (pre : List Char) (d : Char) (rest : List Char) (params : Params),
        ':' ∉ pre → isNotWordChar d = true →
        qprintf (pre ++ ':' :: d :: rest) params =
          match qprintf rest params with
          | .error e => .error e
          | .ok r => .ok (pre ++ ':' :: d :: r)) ∧
    (∀ (pre : List Char) (params : Params),
        ':' ∉ pre → qprintf (pre ++ [':']) params = .ok (pre ++ [':'])) := by
  refine ⟨?_, ?_, qprintf_placeholder, qprintf_skip_nonword,
    qprintf_trailing_colon⟩
  · simp +decide [qprintf, toDbValue, isNotWordChar, List.lookup]
  · simp +decide [qprintf, toDbValue, quoteLiteral, quoteBody, isNotWordChar,
      List.lookup]

/-- Witness for C2: the general conjuncts applied at concrete inputs. -/
theorem scanner_placeholder_recognition_witness :
    qprintf "x = :a AND y".data [("a", .intV 7)] = .ok "x = 7 AND y".data ∧
    qprintf "t:: u".data [] = .ok "t:: u".data ∧
    qprintf "sad:".data [] = .ok "sad:".data := by
  refine ⟨?_, ?_, ?_⟩
  · have h := scanner_placeholder_recognition.2.2.1 "x = ".data "a".data
      " AND y".data [("a", .intV 7)] (by decide) (by decide) (by decide)
      (by decide)
    exact h.trans (by simp +decide [qprintf, toDbValue, isNotWordChar])
  · have h := scanner_placeholder_recognition.2.2.2.1 "t".data ':' " u".data
      [] (by decide) (by decide)
    exact h.trans (by simp +decide [qprintf])
  · exact scanner_placeholder_recognition.2.2.2.2 "sad".data [] (by decide)

/-- C3: every byte of the template outside a recognised placeholder span is
copied unchanged and in order into the output: the chunk decomposition
reassembles to the template, the scan renders exactly that decomposition
(literal chunks verbatim), and a template without recognised placeholders is
returned unchanged for every parameter mapping. -/
theorem qprintf_preserves_literal_text :
    (∀ s : List Char, ((tokenize s).map chunkSource).flatten = s) ∧
    (∀ (s : List Char) (params : Params),
        qprintf s params = renderChunks params (tokenize s)) ∧
    (∀ (s : List Char) (params : Params),
        hasPlaceholder s = false → qprintf s params = .ok s) := by
  refine ⟨tokenize_flatten, qprintf_eq_renderChunks, ?_⟩
  intro s params h
  have hno : ∀ w, Chunk.ph w ∉ tokenize s := by
    intro w hw
    have ht : hasPlaceholder s = true := by
      unfold hasPlaceholder
      rw [List.any_eq_true]
      exact ⟨_, hw, rfl⟩
    rw [h] at ht
    cases ht
  rw [qprintf_eq_renderChunks, renderChunks_of_no_ph _ _ hno, tokenize_flatten]

/-- Witness for C3: the identity conjunct at a concrete placeholder-free
template. -/
theorem qprintf_preserves_literal_text_witness :
    qprintf "SELECT a::int FROM t".data [] = .ok "SELECT a::int FROM t".data := by
  have h : hasPlaceholder "SELECT a::int FROM t".data = false := by
    simp +decide [hasPlaceholder, tokenize, isNotWordChar]
  exact qprintf_preserves_literal_text.2.2 _ [] h

/-- C4: a template with a recognised placeholder absent from the parameter
mapping makes substitution fail — with the "parameter missing" error naming
the (first such) placeholder whenever every supplied value itself encodes,
and in any case with no successful output (the Go function returns the empty
string alongside the error, which the `Except` error models); plus a
concrete instance. -/
theorem missing_parameter_error :
    (∀ (s : List Char) (params : Params) (n : String),
        (∀ p ∈ params, ∃ t, toDbValue p.2 = .ok t) →
        firstMissingName params (tokenize s) = some n →
        qprintf s params = .error (.missingParam n)) ∧
    (∀ (s : List Char) (params : Params) (w : List Char),
        Chunk.ph w ∈ tokenize s → List.lookup (String.mk w) params = none →
        ∀ out, qprintf s params ≠ .ok out) ∧
    qprintf "SELECT :missing FROM t".data [("present", .strV "x")] =
      .error (.missingParam "missing") := by
  refine ⟨?_, ?_, ?_⟩
  · intro s params n henc h
    rw [qprintf_eq_renderChunks]
    exact renderChunks_firstMissing params _ henc n h
  · intro s params w hw hnone out hok
    rw [qprintf_eq_renderChunks] at hok
    obtain ⟨v, hv⟩ := renderChunks_ok_lookup params _ out hok w hw
    rw [hnone] at hv
    cases hv
  · simp +decide [qprintf, isNotWordChar, List.lookup]

/-- Witness for C4: both general conjuncts at a concrete template and
mapping. -/
theorem missing_parameter_error_witness :
    qprintf ":a, :b".data [("a", .strV "x")] = .error (.missingParam "b") ∧
    ∀ out, qprintf ":a, :b".data [("a", .strV "x")] ≠ .ok out := by
  constructor
  · refine missing_parameter_error.1 ":a, :b".data [("a", .strV "x")] "b" ?_ ?_
    · intro p hp
      have hp' : p = ("a", GoValue.strV "x") := by simpa using hp
      subst hp'
      exact ⟨quoteLiteral "x", by simp [toDbValue]⟩
    · simp +decide [firstMissingName, tokenize, isNotWordChar]
  · refine missing_parameter_error.2.1 ":a, :b".data [("a", .strV "x")]
      "b".data ?_ (by simp +decide [List.lookup])
    simp +decide [tokenize, isNotWordChar]

/-- C10: ASCII digits are not placeholder-name characters: every digit is a
non-word character to the scanner, `:a1` with `a ↦ 5` renders as the
encoding of `5` followed by the literal `1`, and no recognised placeholder
name ever contains a digit (names consist of word characters `[A-Za-z_]`
only, and digits are not among them). -/
theorem digits_not_name_chars :
    (∀ c ∈ "0123456789".data, isNotWordChar c = true) ∧
    (qprintf ":a1".data [("a", .intV 5)] = .ok "51".data) ∧
    (∀ (s w : List Char), Chunk.ph w ∈ tokenize s →
        ∀ c ∈ w, isNotWordChar c = false) := by
  refine ⟨by decide, ?_, tokenize_ph_wordchars⟩
  simp +decide [qprintf, toDbValue, isNotWordChar]

/-- Witness for C10: the digit conjunct at `'5'` and the name-character
conjunct at the recognised placeholder of a concrete template. -/
theorem digits_not_name_chars_witness :
    isNotWordChar '5' = true ∧ isNotWordChar 'a' = false := by
  constructor
  · exact digits_not_name_chars.1 '5' (by decide)
  · exact digits_not_name_chars.2.2 ":ab7".data "ab".data
      (by simp +decide [tokenize, isNotWordChar]) 'a' (by decide)

/-- Counterexample to C7 as stated: when the collaborator itself fails
`ExecContext` with the no-rows sentinel, `Exec` wraps it like any other
error, so the result is not identical to the sentinel and identity checks by
callers fail. -/
theorem exec_wraps_noRows_counterexample :
    (Exec noRowsConn "SELECT 1" []).1 =
      .error (.wrapped .errNoRows "SELECT 1" []) ∧
    (Exec noRowsConn "SELECT 1" []).1 ≠ .error .errNoRows := by
  have he : (Exec noRowsConn "SELECT 1" []).1 =
      .error (.wrapped .errNoRows "SELECT 1" []) := by
    simp +decide [Exec, qprintf, noRowsConn, wrapError]
  refine ⟨he, ?_⟩
  rw [he]
  simp

/-- C7 (amended): a render failure returns the wrapped render error with the
original template and mapping, and no call reaches the collaborator; a
collaborator failure of `Exec` is wrapped whatever the error is (the no-rows
sentinel included); the no-rows sentinel is passed through unwrapped exactly
when it arises from the row scan of `QueryRowAndScan`, while any other scan
error is wrapped. -/
theorem executor_error_wrapping :
    (∀ (db : Conn) (sqlT : String) (params : Params) (e : GoErr),
        qprintf sqlT.data params = .error e →
        Exec db sqlT params = (.error (wrapError e sqlT params), []) ∧
        Query db sqlT params = (.error (wrapError e sqlT params), []) ∧
        QueryRow db sqlT params = (.error (wrapError e sqlT params), []) ∧
        QueryRowAndScan db sqlT params =
          (.error (wrapError e sqlT params), [])) ∧
    (∀ (db : Conn) (sqlT : String) (params : Params) (q : List Char)
        (err : GoErr),
        qprintf sqlT.data params = .ok q →
        db.execOutcome (String.mk q) = .error err →
        Exec db sqlT params =
          (.error (wrapError err sqlT params), [String.mk q])) ∧
    (∀ (db : Conn) (sqlT : String) (params : Params) (q : List Char),
        qprintf sqlT.data params = .ok q →
        db.rowScanOutcome (String.mk q) = .error .errNoRows →
        QueryRowAndScan db sqlT params = (.error .errNoRows, [String.mk q])) ∧
    (∀ (db : Conn) (sqlT : String) (params : Params) (q : List Char)
        (err : GoErr),
        qprintf sqlT.data params = .ok q →
        db.rowScanOutcome (String.mk q) = .error err → err ≠ .errNoRows →
        QueryRowAndScan db sqlT params =
          (.error (wrapError err sqlT params), [String.mk q])) := by
  refine ⟨?_, ?_, ?_, ?_⟩
  · intro db sqlT params e h
    refine ⟨?_, ?_, ?_, ?_⟩ <;>
      simp [Exec, Query, QueryRow, QueryRowAndScan, h]
  · intro db sqlT params q err h hdb
    simp [Exec, h, hdb]
  · intro db sqlT params q h hscan
    simp [QueryRowAndScan, QueryRow, h, hscan]
  · intro db sqlT params q err h hscan hne
    cases err <;> simp_all [QueryRowAndScan, QueryRow]

/-- Witness for C7 (amended): the four conjuncts at concrete collaborators
and templates. -/
theorem executor_error_wrapping_witness :
    Exec okConn ":m" [] =
      (.error (wrapError (.missingParam "m") ":m" []), []) ∧
    Exec noRowsConn "SELECT 1" [] =
      (.error (wrapError .errNoRows "SELECT 1" []), ["SELECT 1"]) ∧
    QueryRowAndScan noRowsConn "SELECT 1" [] =
      (.error .errNoRows, ["SELECT 1"]) ∧
    QueryRowAndScan failScanConn "SELECT 1" [] =
      (.error (wrapError (.connFail "x") "SELECT 1" []), ["SELECT 1"]) := by
  refine ⟨?_, ?_, ?_, ?_⟩
  · exact (executor_error_wrapping.1 okConn ":m" [] (.missingParam "m")
      (by simp +decide [qprintf, isNotWordChar, List.lookup])).1
  · exact executor_error_wrapping.2.1 noRowsConn "SELECT 1" []
      "SELECT 1".data .errNoRows (by simp +decide [qprintf, isNotWordChar]) rfl
  · exact executor_error_wrapping.2.2.1 noRowsConn "SELECT 1" []
      "SELECT 1".data (by simp +decide [qprintf, isNotWordChar]) rfl
  · exact executor_error_wrapping.2.2.2 failScanConn "SELECT 1" []
      "SELECT 1".data (.connFail "x")
      (by simp +decide [qprintf, isNotWordChar]) rfl (by simp)

/-- Counterexample to C8 as stated: starting from version 0 with the
duplicate-free versions {1, 2, 5} presented in the order [5, 1, 2], a
successful `Run` executes only the body of version 5 — the bodies of
versions 1 and 2 are never executed, although the persisted version still
becomes 5. -/
theorem migrate_unsorted_counterexample :
    MigrateRun okConn 0 [⟨5, "mig_e"⟩, ⟨1, "mig_c"⟩, ⟨2, "mig_d"⟩] =
      (5, ["mig_e", "UPDATE migrations SET version = 5"], none) ∧
    "mig_c" ∉
      (MigrateRun okConn 0 [⟨5, "mig_e"⟩, ⟨1, "mig_c"⟩, ⟨2, "mig_d"⟩]).2.1 := by
  have he : MigrateRun okConn 0 [⟨5, "mig_e"⟩, ⟨1, "mig_c"⟩, ⟨2, "mig_d"⟩] =
      (5, ["mig_e", "UPDATE migrations SET version = 5"], none) := by
    simp +decide [MigrateRun, migrateLoop, okConn, Exec, qprintf, toDbValue,
      isNotWordChar, List.lookup]
  refine ⟨he, ?_⟩
  rw [he]
  decide

/-- C8 (amended): `Run` applies, in slice order, exactly those migrations
whose version exceeds the running tracker, so for the ascending slice
[1, 2, 5] over an empty catalog each body executes exactly once, in
ascending order, and the persisted version becomes 5; a second `Run` with
the same list executes no body and leaves the version at 5; in general a
list whose versions are all at or below the tracker leaves the loop state
untouched. -/
theorem migrate_ascending_applies_all :
    (MigrateRun okConn 0 [⟨1, "mig_c"⟩, ⟨2, "mig_d"⟩, ⟨5, "mig_e"⟩] =
      (5, ["mig_c", "mig_d", "mig_e", "UPDATE migrations SET version = 5"],
        none)) ∧
    (MigrateRun okConn 5 [⟨1, "mig_c"⟩, ⟨2, "mig_d"⟩, ⟨5, "mig_e"⟩] =
      (5, ["UPDATE migrations SET version = 5"], none)) ∧
    (∀ (tx : Conn) (ms : List Migration) (latest : Int) (log : List String),
        (∀ m ∈ ms, m.version ≤ latest) →
        migrateLoop tx ms latest none log = (latest, none, log)) := by
  refine ⟨?_, ?_, ?_⟩
  · simp +decide [MigrateRun, migrateLoop, okConn, Exec, qprintf, toDbValue,
      isNotWordChar, List.lookup]
  · simp +decide [MigrateRun, migrateLoop, okConn, Exec, qprintf, toDbValue,
      isNotWordChar, List.lookup]
  · intro tx ms
    induction ms with
    | nil => intro latest log h; rfl
    | cons m ms ih =>
      intro latest log h
      have hm : ¬(m.version > latest) := by
        have := h m (List.mem_cons_self _ _)
        omega
      rw [migrateLoop]
      rw [if_neg hm]
      exact ih latest log (fun x hx => h x (List.mem_cons_of_mem _ hx))

/-- Witness for C8 (amended): the no-op conjunct at a concrete
already-applied list. -/
theorem migrate_ascending_applies_all_witness :
    migrateLoop okConn [⟨1, "mig_c"⟩, ⟨2, "mig_d"⟩] 5 none [] =
      (5, none, []) :=
  migrate_ascending_applies_all.2.2 okConn [⟨1, "mig_c"⟩, ⟨2, "mig_d"⟩] 5 []
    (by decide)

/-- Counterexample to C9 as stated: when the body of version 2 fails (after
version 1 succeeded), the in-memory tracker is advanced to 2, the failing
migration's version — not kept at the last successful value 1. -/
theorem migrate_tracker_advanced_counterexample :
    (migrateLoop failBConn [⟨1, "mig_a"⟩, ⟨2, "mig_b"⟩, ⟨5, "mig_e"⟩]
        0 none []).1 = 2 ∧
    (migrateLoop failBConn [⟨1, "mig_a"⟩, ⟨2, "mig_b"⟩, ⟨5, "mig_e"⟩]
        0 none []).1 ≠ 1 := by
  have he : migrateLoop failBConn [⟨1, "mig_a"⟩, ⟨2, "mig_b"⟩, ⟨5, "mig_e"⟩]
      0 none [] = (2, some (.connFail "boom"), ["mig_a", "mig_b"]) := by
    simp +decide [migrateLoop, failBConn]
  rw [he]
  exact ⟨rfl, by decide⟩

/-- C9 (amended): once a body fails, no further migration is applied (the
loop state is frozen); the stored error is returned and the persisted
version stays at its pre-run value, the version-update statement and the
commit being skipped; concretely, with version 2's body failing after
version 1, the run returns the failure, executes only the bodies of 1 and 2,
leaves the persisted version at 0 — while the in-memory tracker was advanced
to the failing version 2 (a value that is never persisted). -/
theorem migrate_failure_semantics :
    (∀ (tx : Conn) (ms : List Migration) (latest : Int) (log : List String)
        (e : GoErr),
        migrateLoop tx ms latest (some e) log = (latest, some e, log)) ∧
    (∀ (tx : Conn) (persisted : Int) (ms : List Migration) (e : GoErr),
        (migrateLoop tx ms persisted none []).2.1 = some e →
        MigrateRun tx persisted ms =
          (persisted, (migrateLoop tx ms persisted none []).2.2, some e)) ∧
    (MigrateRun failBConn 0 [⟨1, "mig_a"⟩, ⟨2, "mig_b"⟩, ⟨5, "mig_e"⟩] =
      (0, ["mig_a", "mig_b"], some (.connFail "boom")) ∧
    (migrateLoop failBConn [⟨1, "mig_a"⟩, ⟨2, "mig_b"⟩, ⟨5, "mig_e"⟩]
        0 none []).1 = 2) := by
  refine ⟨?_, ?_, ?_, ?_⟩
  · intro tx ms latest log e
    cases ms <;> rfl
  · intro tx persisted ms e h
    simp only [MigrateRun, h]
  · simp +decide [MigrateRun, migrateLoop, failBConn]
  · simp +decide [migrateLoop, failBConn]

/-- Witness for C9 (amended): the rollback conjunct at a concrete failing
run. -/
theorem migrate_failure_semantics_witness :
    MigrateRun failBConn 0 [⟨2, "mig_b"⟩] = (0, ["mig_b"], some (.connFail "boom")) := by
  have h : (migrateLoop failBConn [⟨2, "mig_b"⟩] 0 none []).2.1 =
      some (.connFail "boom") := by
    simp +decide [migrateLoop, failBConn]
  have h2 := migrate_failure_semantics.2.1 failBConn 0 [⟨2, "mig_b"⟩]
    (.connFail "boom") h
  rw [h2]
  simp +decide [migrateLoop, failBConn]

end Db
